import Mathlib

/-!
Verification development for the musualiser capture-to-spectrum pipeline.

The Rust source is shallowly embedded over exact rationals: `f32` arithmetic
is modelled by `ℚ` (exact real arithmetic), `u32`/`usize` by `ℕ`.  The two
transcendental library operations the pipeline uses (`f32::ln` inside the mel
remap and `Complex::norm`, a square root) and the external FFT routine
(`rustfft::Fft::process`) are kept as explicit function parameters of the
embedded definitions; every arithmetic, indexing and control-flow step of the
repository's own code is embedded exactly.
-/

/-- Models `rustfft::num_complex::Complex<f32>`: a pair of (exact) reals. -/
structure Cplx where
  re : ℚ
  im : ℚ
deriving DecidableEq, Repr

/-- Default bin used to model `unwrap()` on elements that are only read when
the surrounding code has already established non-emptiness. -/
def dfltBin : Cplx × ℚ := (⟨0, 0⟩, 0)

/-- Models `data.iter().map(|&x| Complex::new(x, 0.0)).collect()` from
`FftHandler::perform_fft` (src/common_audio_manager.rs line 24). -/
def liftComplex (data : List ℚ) : List Cplx :=
  data.map (fun x => ⟨x, 0⟩)

/-- Models `processed_data.drain((len / 2)..len)` (src/common_audio_manager.rs
line 28): only the first half of the transform output is retained. -/
def keepFirstHalf (l : List Cplx) : List Cplx :=
  l.take (l.length / 2)

/-- Models the frequency-pairing loop of `perform_fft`
(src/common_audio_manager.rs lines 31-36): `step` is computed as
`sample_rate / processed_data.len()` where `len()` is read AFTER the drain,
so the denominator is the retained half length, and bin `index` is paired
with `index * step`. -/
def pairFrequencies (sampleRate : ℕ) (l : List Cplx) : List (Cplx × ℚ) :=
  let step : ℚ := (sampleRate : ℚ) / (l.length : ℚ)
  l.enum.map (fun p => (p.2, (p.1 : ℚ) * step))

/-- Models `transformed_data.retain(|&x| x.1 > 20.0 && x.1 < 20000.0)`
(src/common_audio_manager.rs line 39). -/
def audibleFilter (l : List (Cplx × ℚ)) : List (Cplx × ℚ) :=
  l.filter (fun x => decide (20 < x.2) && decide (x.2 < 20000))

/-- Models the `FftHandler` struct (src/common_audio_manager.rs): the planned
forward transform `Arc<dyn Fft<f32>>` is an external library object, embedded
as an opaque-to-us function field on the handler. -/
structure FftHandler where
  sampleRate : ℕ
  fftProcess : List Cplx → List Cplx

/-- Models `FftHandler::perform_fft` (src/common_audio_manager.rs lines 22-43)
end to end; `FftFilter::perform_fft` (src/file_audio_manager.rs lines 92-114)
is the same pipeline writing to a shared slot instead of a channel. -/
def FftHandler.perform_fft (h : FftHandler) (data : List ℚ) : List (Cplx × ℚ) :=
  audibleFilter (pairFrequencies h.sampleRate
    (keepFirstHalf (h.fftProcess (liftComplex data))))

lemma pairFrequencies_snd_getD (sampleRate : ℕ) (l : List Cplx) (i : ℕ)
    (hi : i < l.length) :
    ((pairFrequencies sampleRate l).map Prod.snd).getD i 0
      = (i : ℚ) * ((sampleRate : ℚ) / (l.length : ℚ)) := by
  have hlen : i < ((pairFrequencies sampleRate l).map Prod.snd).length := by
    simp [pairFrequencies, hi]
  rw [List.getD_eq_getElem _ _ hlen]
  simp [pairFrequencies]

/-- C1: for every analyzed window of length `L` at sample rate `R`, the claim
says retained bin `i` is paired with frequency `i * R / L`.  The code computes
`step = R / (L/2)` because it reads the vector length after the half-spectrum
drain, so every bin frequency is doubled: in the 44100 Hz / 8820-sample
scenario, bin 88 (where a 440 Hz sine peaks) is labeled 880 Hz, twice the
claimed `88 * 44100 / 8820 = 440`. -/
theorem C1_frequency_doubled :
    ((pairFrequencies 44100
        (keepFirstHalf (liftComplex (List.replicate 8820 (1 : ℚ))))).map
          Prod.snd).getD 88 0 = 880
    ∧ (88 : ℚ) * 44100 / 8820 = 440 ∧ (880 : ℚ) ≠ 440 := by
  have hlen : (keepFirstHalf (liftComplex (List.replicate 8820 (1 : ℚ)))).length
      = 4410 := by
    rw [keepFirstHalf, List.length_take, liftComplex, List.length_map,
      List.length_replicate]
    norm_num
  refine ⟨?_, by norm_num, by norm_num⟩
  rw [pairFrequencies_snd_getD 44100 _ 88 (by rw [hlen]; norm_num), hlen]
  norm_num

lemma pairFrequencies_pairwise (sampleRate : ℕ) (l : List Cplx)
    (hpos : 0 < (sampleRate : ℚ) / (l.length : ℚ)) :
    (pairFrequencies sampleRate l).Pairwise (fun a b => a.2 < b.2) := by
  simp only [pairFrequencies]
  rw [List.pairwise_map, List.enum_eq_zip_range]
  have h1 : List.Pairwise (· < ·)
      (List.map Prod.fst ((List.range l.length).zip l)) := by
    rw [List.map_fst_zip _ _ (by simp)]
    exact List.pairwise_lt_range _
  have h2 := List.pairwise_map.mp h1
  exact h2.imp fun hab => by
    exact mul_lt_mul_of_pos_right (by exact_mod_cast hab) hpos

lemma pairFrequencies_snd_nonpos (sampleRate : ℕ) (l : List Cplx)
    (hnp : (sampleRate : ℚ) / (l.length : ℚ) ≤ 0) :
    ∀ p ∈ pairFrequencies sampleRate l, p.2 ≤ 0 := by
  intro p hp
  simp only [pairFrequencies, List.mem_map] at hp
  obtain ⟨q, _, rfl⟩ := hp
  exact mul_nonpos_of_nonneg_of_nonpos (by positivity) hnp

/-- C6: every pair emitted by `perform_fft` has its frequency strictly between
20 Hz and 20000 Hz, and the frequencies are strictly increasing with position:
the pre-filter frequencies are `index * step` for a fixed non-negative `step`
(strictly increasing whenever `step > 0`, all filtered away when `step = 0`),
and `retain` preserves relative order. -/
theorem C6_audible_strictly_increasing (h : FftHandler) (data : List ℚ) :
    (∀ p ∈ h.perform_fft data, 20 < p.2 ∧ p.2 < 20000)
    ∧ ((h.perform_fft data).map Prod.snd).Sorted (· < ·) := by
  constructor
  · intro p hp
    simp only [FftHandler.perform_fft, audibleFilter, List.mem_filter,
      Bool.and_eq_true, decide_eq_true_eq] at hp
    exact hp.2
  · rcases lt_or_le 0 ((h.sampleRate : ℚ) /
        ((keepFirstHalf (h.fftProcess (liftComplex data))).length : ℚ)) with
      hpos | hnp
    · have hpw := pairFrequencies_pairwise h.sampleRate
        (keepFirstHalf (h.fftProcess (liftComplex data))) hpos
      have hflt := List.Pairwise.filter
        (fun x => decide (20 < x.2) && decide (x.2 < 20000)) hpw
      exact List.pairwise_map.mpr hflt
    · have hnil : h.perform_fft data = [] := by
        simp only [FftHandler.perform_fft, audibleFilter]
        rw [List.filter_eq_nil_iff]
        intro a ha
        have := pairFrequencies_snd_nonpos h.sampleRate
          (keepFirstHalf (h.fftProcess (liftComplex data))) hnp a ha
        simp only [Bool.and_eq_true, decide_eq_true_eq, not_and]
        intro h20
        linarith
      rw [hnil]
      simp

/-- C6 witness at a concrete handler and window. -/
theorem C6_witness :
    (∀ p ∈ (FftHandler.mk 8 id).perform_fft [1, 2, 3, 4], 20 < p.2 ∧ p.2 < 20000)
    ∧ (((FftHandler.mk 8 id).perform_fft [1, 2, 3, 4]).map Prod.snd).Sorted
        (· < ·) :=
  C6_audible_strictly_increasing (FftHandler.mk 8 id) [1, 2, 3, 4]

/-- Models the sample-accumulation state of the `FftFilter` struct
(src/file_audio_manager.rs): `internalVector` is the mono-sample window
buffer; `analyses` counts the `perform_fft` calls (instrumentation for the
statements below, the Rust struct has no such field). -/
structure FftFilter where
  internalVector : List ℚ
  analyses : ℕ
deriving DecidableEq, Repr

/-- Models one first-channel sample arriving in `FftFilter::next`
(src/file_audio_manager.rs lines 29-41): push the sample; once the buffer
holds exactly the window length `L = sample_rate / FFT_FREQUENCY`, perform
the FFT and `drain(0..len / 4)`, discarding the first quarter.  The identical
fill-then-drain-a-quarter pattern drives `AudioThread::capture_loop`
(src/app_audio_manager.rs lines 97-106).  The per-frame channel subsampling
(`counter % channels`) is upstream of this buffer and not modelled: one call
is one retained mono sample. -/
def FftFilter.next (L : ℕ) (self : FftFilter) (sample : ℚ) : FftFilter :=
  let iv := self.internalVector ++ [sample]
  if iv.length = L then
    { internalVector := iv.drop (iv.length / 4), analyses := self.analyses + 1 }
  else
    { internalVector := iv, analyses := self.analyses }

/-- Feed a whole sample stream, one sample at a time, from the empty state. -/
def FftFilter.feed (L : ℕ) (xs : List ℚ) : FftFilter :=
  xs.foldl (FftFilter.next L) ⟨[], 0⟩

lemma FftFilter.next_full (L : ℕ) (s : FftFilter) (y : ℚ)
    (h : s.internalVector.length + 1 = L) :
    FftFilter.next L s y
      = ⟨(s.internalVector ++ [y]).drop (L / 4), s.analyses + 1⟩ := by
  simp only [FftFilter.next, List.length_append, List.length_singleton]
  rw [if_pos h, h]

lemma FftFilter.next_notfull (L : ℕ) (s : FftFilter) (y : ℚ)
    (h : s.internalVector.length + 1 ≠ L) :
    FftFilter.next L s y = ⟨s.internalVector ++ [y], s.analyses⟩ := by
  simp only [FftFilter.next, List.length_append, List.length_singleton]
  rw [if_neg h]

/-- Closed form for the accumulator: after `n` pushed samples the number of
analyses performed is `0` when `n < L` and `(n - L) / (L/4) + 1` otherwise,
and the buffer length accounts for exactly `L/4` discarded samples per
analysis. -/
lemma FftFilter.feed_closed (L : ℕ) (hL : 4 ≤ L) (xs : List ℚ) :
    (FftFilter.feed L xs).internalVector.length
        + (FftFilter.feed L xs).analyses * (L / 4) = xs.length
    ∧ (FftFilter.feed L xs).analyses
        = if xs.length < L then 0 else (xs.length - L) / (L / 4) + 1 := by
  have hQ1 : 1 ≤ L / 4 := (Nat.one_le_div_iff (by norm_num)).mpr hL
  have hQL : L / 4 < L := Nat.div_lt_self (by omega) (by norm_num)
  induction xs using List.reverseRecOn with
  | nil =>
    constructor
    · simp [FftFilter.feed]
    · simp only [FftFilter.feed, List.foldl_nil, List.length_nil]
      rw [if_pos (by omega)]
  | append_singleton ys y ih =>
    obtain ⟨ihsum, ihcnt⟩ := ih
    have hstep : FftFilter.feed L (ys ++ [y])
        = FftFilter.next L (FftFilter.feed L ys) y := by
      simp [FftFilter.feed, List.foldl_append]
    rw [hstep, List.length_append, List.length_singleton]
    by_cases hfull : (FftFilter.feed L ys).internalVector.length + 1 = L
    · rw [FftFilter.next_full L _ y hfull]
      constructor
      · simp only [List.length_drop, List.length_append, List.length_singleton]
        rw [Nat.succ_mul]
        omega
      · rcases lt_or_le ys.length L with hlt | hge
        · have ha0 : (FftFilter.feed L ys).analyses = 0 := by
            rw [ihcnt, if_pos hlt]
          rw [ha0] at ihsum
          rw [if_neg (by omega), ha0]
          have h0 : ys.length + 1 - L = 0 := by omega
          rw [h0, Nat.zero_div]
        · have had : (FftFilter.feed L ys).analyses
              = (ys.length - L) / (L / 4) + 1 := by
            rw [ihcnt, if_neg (by omega)]
          have hdm : ((ys.length - L) / (L / 4)) * (L / 4)
              + (ys.length - L) % (L / 4) = ys.length - L := by
            rw [Nat.mul_comm]
            exact Nat.div_add_mod _ _
          have hrQ : (ys.length - L) % (L / 4) < L / 4 :=
            Nat.mod_lt _ (by omega)
          rw [had, Nat.succ_mul] at ihsum
          have hrQ2 : (ys.length - L) % (L / 4) + 1 = L / 4 := by omega
          have hm1 : ys.length + 1 - L
              = ((ys.length - L) / (L / 4) + 1) * (L / 4) := by
            rw [Nat.succ_mul]
            omega
          rw [if_neg (by omega), had, hm1,
            Nat.mul_div_cancel _ (by omega : 0 < L / 4)]
    · rw [FftFilter.next_notfull L _ y hfull]
      constructor
      · simp only [List.length_append, List.length_singleton]
        omega
      · rcases lt_trichotomy (ys.length + 1) L with hlt | heq | hgt
        · rw [if_pos hlt, ihcnt, if_pos (by omega)]
        · exfalso
          have ha0 : (FftFilter.feed L ys).analyses = 0 := by
            rw [ihcnt, if_pos (by omega)]
          rw [ha0] at ihsum
          omega
        · have had : (FftFilter.feed L ys).analyses
              = (ys.length - L) / (L / 4) + 1 := by
            rw [ihcnt, if_neg (by omega)]
          have hdm : ((ys.length - L) / (L / 4)) * (L / 4)
              + (ys.length - L) % (L / 4) = ys.length - L := by
            rw [Nat.mul_comm]
            exact Nat.div_add_mod _ _
          have hrQ : (ys.length - L) % (L / 4) < L / 4 :=
            Nat.mod_lt _ (by omega)
          rw [had, Nat.succ_mul] at ihsum
          have hrQ2 : (ys.length - L) % (L / 4) + 1 < L / 4 := by omega
          have h2 : ys.length + 1 - L
              = (ys.length - L) % (L / 4) + 1
                + ((ys.length - L) / (L / 4)) * (L / 4) := by
            omega
          rw [if_neg (by omega), had, h2,
            Nat.add_mul_div_right _ _ (by omega : 0 < L / 4),
            Nat.div_eq_of_lt hrQ2]
          omega

/-- C5: with window length `L` (at least one full quarter) and overlap
quarter `Q = L/4`, a stream of exactly `L + (N-1)*Q` samples triggers exactly
`N` analyses, the buffer then retains the last `L - L/4` samples (the first
quarter of each full window having been discarded), and no analysis happens
before the first window is full (partial windows are never analyzed). -/
theorem C5_quarter_overlap (L N : ℕ) (xs : List ℚ) (hL : 4 ≤ L) (hN : 1 ≤ N)
    (hlen : xs.length = L + (N - 1) * (L / 4)) :
    (FftFilter.feed L xs).analyses = N
    ∧ (FftFilter.feed L xs).internalVector.length = L - L / 4
    ∧ (FftFilter.feed L (xs.take (L - 1))).analyses = 0 := by
  have hQ1 : 1 ≤ L / 4 := (Nat.one_le_div_iff (by norm_num)).mpr hL
  obtain ⟨hsum, hcnt⟩ := FftFilter.feed_closed L hL xs
  have hk : xs.length = L + (N - 1) * (L / 4) := hlen
  have hnL : ¬ xs.length < L := by
    rw [hk]; omega
  have hana : (FftFilter.feed L xs).analyses = N := by
    rw [hcnt, if_neg hnL, hk]
    have h1 : L + (N - 1) * (L / 4) - L = (N - 1) * (L / 4) := by omega
    rw [h1, Nat.mul_div_cancel _ (by omega : 0 < L / 4)]
    omega
  refine ⟨hana, ?_, ?_⟩
  · rw [hana] at hsum
    have hNQ : N * (L / 4) = (N - 1) * (L / 4) + L / 4 := by
      conv_lhs => rw [show N = (N - 1) + 1 by omega]
      rw [Nat.succ_mul]
    have hQL : L / 4 < L := Nat.div_lt_self (by omega) (by norm_num)
    rw [hNQ] at hsum
    omega
  · obtain ⟨_, hcnt2⟩ := FftFilter.feed_closed L hL (xs.take (L - 1))
    rw [hcnt2, if_pos]
    rw [List.length_take]
    have : L - 1 ≤ xs.length := by rw [hk]; omega
    omega

/-- C5 witness: window length 8, two analyses after 8 + 2 = 10 samples. -/
theorem C5_witness :
    4 ≤ 8 ∧ 1 ≤ 2
    ∧ (List.replicate 10 (0 : ℚ)).length = 8 + (2 - 1) * (8 / 4)
    ∧ ((FftFilter.feed 8 (List.replicate 10 (0 : ℚ))).analyses = 2
      ∧ (FftFilter.feed 8 (List.replicate 10 (0 : ℚ))).internalVector.length
          = 8 - 8 / 4
      ∧ (FftFilter.feed 8 ((List.replicate 10 (0 : ℚ)).take (8 - 1))).analyses
          = 0) :=
  ⟨by norm_num, by norm_num, by simp,
    C5_quarter_overlap 8 2 (List.replicate 10 0) (by norm_num) (by norm_num)
      (by simp)⟩

/-- Models the mel remap of `FftRenderer::data_preprocess`
(src/fft_renderer.rs line 160): `(x.0, 1127.0 * (1.0 + x.1 / 700.0).ln())`.
The `f32::ln` library routine is the parameter `ln`. -/
def melMap (ln : ℚ → ℚ) (data : List (Cplx × ℚ)) : List (Cplx × ℚ) :=
  data.map (fun x => (x.1, 1127 * ln (1 + x.2 / 700)))

/-- Models `(mel_data.last().unwrap().1 - mel_data.first().unwrap().1) / 150.0`
(src/fft_renderer.rs line 163); the unwraps are guarded by the caller's
emptiness check. -/
def melDiffOf (melData : List (Cplx × ℚ)) : ℚ :=
  ((melData.getLastD dfltBin).2 - (melData.headD dfltBin).2) / 150

/-- Models the inner `while` of the bucket-averaging loop
(src/fft_renderer.rs lines 170-173): starting from index `j`, consume bins
while `mel_data[j].1 < bound`, accumulating `sum += mel_data[j].0.norm()`.
The remaining slice `melData.drop j` is iterated directly so that the
function is structurally recursive; the returned first component is the
final value of `j`.  The `Complex::norm` library routine is the parameter
`norm`. -/
def innerScanAux (norm : Cplx → ℚ) (bound : ℚ) :
    List (Cplx × ℚ) → ℕ → ℚ → ℕ × ℚ
  | [], j, sum => (j, sum)
  | x :: rest, j, sum =>
    if x.2 < bound then innerScanAux norm bound rest (j + 1) (sum + norm x.1)
    else (j, sum)

/-- Inner while loop entered at index `j` of `melData`. -/
def innerScan (norm : Cplx → ℚ) (melData : List (Cplx × ℚ)) (bound : ℚ)
    (j : ℕ) (sum : ℚ) : ℕ × ℚ :=
  innerScanAux norm bound (melData.drop j) j sum

/-- Models the outer `while i < mel_data.len()` of the bucket-averaging loop
(src/fft_renderer.rs lines 167-177).  Each iteration runs the inner scan from
`j = i` with bound `mel_data[i].1 + mel_diff`, pushes the pair
`(sum, j - i)` — the source pushes `sum / (j - i)`; the pair keeps the
divisor observable — and continues at `i = j`.  The Rust loop has no fuel;
the `fuel` argument makes the model total: a `false` flag means the fuel ran
out with the loop still running (the accumulated pushes up to that point are
returned), which happens exactly when the source loop diverges, since under
the positive-mel-width precondition fuel `melData.length + 1` is proven
sufficient and the result fuel-independent. -/
def outerLoop (norm : Cplx → ℚ) (melData : List (Cplx × ℚ)) (melDiff : ℚ) :
    ℕ → ℕ → List (ℚ × ℕ) → List (ℚ × ℕ) × Bool
  | 0, _, acc => (acc.reverse, false)
  | fuel + 1, i, acc =>
    if i < melData.length then
      let r := innerScan norm melData ((melData.getD i dfltBin).2 + melDiff) i 0
      outerLoop norm melData melDiff fuel r.1 ((r.2, r.1 - i) :: acc)
    else (acc.reverse, true)

/-- Full bucket-averaging pass over a mel-mapped batch, as invoked by
`data_preprocess`: sums and divisor counts of every bucket the loop pushes,
plus the termination flag. -/
def bucketPairs (norm : Cplx → ℚ) (melData : List (Cplx × ℚ)) :
    List (ℚ × ℕ) × Bool :=
  outerLoop norm melData (melDiffOf melData) (melData.length + 1) 0 []

/-- Models `averaged_data.iter().max_by(|a, b| a.total_cmp(b)).unwrap()`
(src/fft_renderer.rs line 180) for the non-empty lists it is called on. -/
def listMax : List ℚ → ℚ
  | [] => 0
  | x :: xs => xs.foldl max x

/-- Models the `FftRenderer` struct (src/fft_renderer.rs lines 6-10):
`input_data` is the mutex-guarded latest SpectrumBatch slot shared with the
producer, `current_render_data` the DisplayCurve, `current_size` the
viewport size. -/
structure FftRenderer where
  inputData : List (Cplx × ℚ)
  currentRenderData : List (ℚ × ℚ)
  currentSize : ℚ × ℚ
deriving DecidableEq, Repr

/-- Models `FftRenderer::data_preprocess` (src/fft_renderer.rs lines 149-197):
early return on an empty input slot; mel remap; bucket averaging (each pushed
pair divided as `sum / (j - i)`); scaling by the maximum and the viewport
height (`(x / largest) * height`, with no Y-axis inversion in the source);
X coordinates `step * i` with `step = width / averaged_data.len()`; and the
final point list combining the two coordinate lists index by index
(modelled by `zip`, the lists having equal length). -/
def FftRenderer.data_preprocess (norm : Cplx → ℚ) (ln : ℚ → ℚ)
    (self : FftRenderer) : FftRenderer :=
  if self.inputData = [] then self else
  let width := self.currentSize.1
  let height := self.currentSize.2
  let melData := melMap ln self.inputData
  let averagedData := (bucketPairs norm melData).1.map
    (fun p => p.1 / (p.2 : ℚ))
  let largest := listMax averagedData
  let processedData := averagedData.map (fun x => x / largest * height)
  let step := width / (averagedData.length : ℚ)
  let xValues := (List.range averagedData.length).map (fun i : ℕ => step * (i : ℚ))
  let finalData := xValues.zip processedData
  { self with currentRenderData := finalData }

/-- Models `FftRenderer::resize` (src/fft_renderer.rs lines 204-210). -/
def FftRenderer.resize (self : FftRenderer) (size : ℚ × ℚ) : FftRenderer :=
  let widthFactor := size.1 / self.currentSize.1
  let heightFactor := size.2 / self.currentSize.2
  { self with
    currentRenderData := self.currentRenderData.map
      (fun x => (x.1 * widthFactor, x.2 * heightFactor)),
    currentSize := size }

/-- Models the data-path of `FftRenderer::render` (src/fft_renderer.rs lines
34-41): resize when the viewport size changed, then preprocess; the actual
draw-list emission is an external collaborator and not modelled. -/
def FftRenderer.render (norm : Cplx → ℚ) (ln : ℚ → ℚ) (self : FftRenderer)
    (size : ℚ × ℚ) : FftRenderer :=
  FftRenderer.data_preprocess norm ln
    (if self.currentSize ≠ size then self.resize size else self)

/-- Concrete stand-in for `Complex::norm` (the squared Euclidean norm, which
is rational-valued); used only to instantiate the `norm` parameter of the
parametric theorems at concrete inputs. -/
def cNorm : Cplx → ℚ := fun c => c.re * c.re + c.im * c.im

/-- Concrete stand-in for `f32::ln` (the identity, which like `ln` is
strictly monotone); used only to instantiate the `ln` parameter of the
parametric theorems at concrete inputs. -/
def cLn : ℚ → ℚ := fun x => x

/-- Specification-shaped reformulation of the bucket loop, used in proofs:
under a positive per-bucket mel width each outer iteration consumes exactly
the maximal prefix of the remaining bins whose mel value lies below the first
remaining bin's mel plus `melDiff`, recording that prefix's norm sum and
length; with a non-positive width the real loop makes no progress, modelled
by the `[(0, 0)]` branch. -/
def bucketsSpec (norm : Cplx → ℚ) (melDiff : ℚ) :
    List (Cplx × ℚ) → List (ℚ × ℕ)
  | [] => []
  | x :: xs =>
    if _h : 0 < melDiff then
      ((((x :: xs).takeWhile fun y => decide (y.2 < x.2 + melDiff)).map
          fun y => norm y.1).sum,
        ((x :: xs).takeWhile fun y => decide (y.2 < x.2 + melDiff)).length)
        :: bucketsSpec norm melDiff
            ((x :: xs).dropWhile fun y => decide (y.2 < x.2 + melDiff))
    else [(0, 0)]
termination_by l => l.length
decreasing_by
  rw [List.dropWhile_cons]
  have hx : decide (x.2 < x.2 + melDiff) = true := by
    simp only [decide_eq_true_eq]
    linarith
  rw [if_pos hx]
  have := (List.dropWhile_sublist
    (fun y : Cplx × ℚ => decide (y.2 < x.2 + melDiff)) (l := xs)).length_le
  simp only [List.length_cons]
  omega

lemma dropWhile_eq_drop_len_takeWhile {α : Type} (p : α → Bool) (l : List α) :
    l.dropWhile p = l.drop (l.takeWhile p).length := by
  induction l with
  | nil => simp
  | cons x xs ih =>
    by_cases h : p x
    · rw [List.takeWhile_cons, if_pos h, List.dropWhile_cons, if_pos h, ih]
      simp
    · rw [List.takeWhile_cons, if_neg h, List.dropWhile_cons, if_neg h]
      simp

lemma innerScanAux_spec (norm : Cplx → ℚ) (bound : ℚ) (l : List (Cplx × ℚ)) :
    ∀ j sum, innerScanAux norm bound l j sum
      = (j + (l.takeWhile fun y => decide (y.2 < bound)).length,
        sum + ((l.takeWhile fun y => decide (y.2 < bound)).map
          fun y => norm y.1).sum) := by
  induction l with
  | nil => intro j sum; simp [innerScanAux]
  | cons x rest ih =>
    intro j sum
    by_cases hx : x.2 < bound
    · rw [innerScanAux, if_pos hx, ih, List.takeWhile_cons,
        if_pos (by simpa using hx)]
      simp only [List.length_cons, List.map_cons, List.sum_cons,
        Prod.mk.injEq]
      constructor
      · omega
      · ring
    · rw [innerScanAux, if_neg hx, List.takeWhile_cons,
        if_neg (by simpa using hx)]
      simp

lemma innerScan_spec (norm : Cplx → ℚ) (melData : List (Cplx × ℚ))
    (bound : ℚ) (j : ℕ) (sum : ℚ) :
    innerScan norm melData bound j sum
      = (j + ((melData.drop j).takeWhile fun y => decide (y.2 < bound)).length,
        sum + (((melData.drop j).takeWhile fun y => decide (y.2 < bound)).map
          fun y => norm y.1).sum) :=
  innerScanAux_spec norm bound (melData.drop j) j sum

/-- Under a positive mel width the outer loop terminates (given fuel beyond
the remaining bin count) and computes exactly the bucket decomposition
`bucketsSpec` of the remaining suffix, independently of any further fuel. -/
lemma outerLoop_spec (norm : Cplx → ℚ) (melData : List (Cplx × ℚ))
    (melDiff : ℚ) (hd : 0 < melDiff) :
    ∀ fuel i acc, melData.length - i < fuel →
      outerLoop norm melData melDiff fuel i acc
        = (acc.reverse ++ bucketsSpec norm melDiff (melData.drop i), true) := by
  intro fuel
  induction fuel with
  | zero => intro i acc h; exact absurd h (Nat.not_lt_zero _)
  | succ fuel ih =>
    intro i acc h
    by_cases hi : i < melData.length
    · have hdropi : melData.drop i
          = melData.getD i dfltBin :: melData.drop (i + 1) := by
        rw [List.getD_eq_getElem _ _ hi]
        exact List.drop_eq_getElem_cons hi
      rw [outerLoop, if_pos hi, innerScan_spec]
      have hhead : decide ((melData.getD i dfltBin).2
          < (melData.getD i dfltBin).2 + melDiff) = true := by
        simp only [decide_eq_true_eq]
        linarith
      have htw : (melData.drop i).takeWhile
            (fun y => decide (y.2 < (melData.getD i dfltBin).2 + melDiff))
          = melData.getD i dfltBin
            :: ((melData.drop (i + 1)).takeWhile
              (fun y => decide (y.2 < (melData.getD i dfltBin).2 + melDiff))) := by
        rw [hdropi, List.takeWhile_cons, if_pos hhead]
      have htwlen : 1 ≤ ((melData.drop i).takeWhile
          (fun y => decide (y.2 < (melData.getD i dfltBin).2 + melDiff))).length := by
        rw [htw]
        simp
      rw [ih _ _ (by omega)]
      rw [List.reverse_cons, List.append_assoc]
      congr 1
      have hrest : melData.drop
            (i + ((melData.drop i).takeWhile
              (fun y => decide (y.2 < (melData.getD i dfltBin).2 + melDiff))).length)
          = (melData.drop i).dropWhile
              (fun y => decide (y.2 < (melData.getD i dfltBin).2 + melDiff)) := by
        rw [dropWhile_eq_drop_len_takeWhile, List.drop_drop]
      conv_rhs => rw [hdropi]
      rw [bucketsSpec, dif_pos hd]
      rw [hrest, hdropi]
      simp [Nat.add_sub_cancel_left]
    · rw [outerLoop, if_neg hi]
      have : melData.drop i = [] := List.drop_eq_nil_of_le (by omega)
      rw [this]
      simp [bucketsSpec]

/-- The bucket averaging pass equals its specification-shaped decomposition
whenever the per-bucket mel width is positive; in particular it terminates. -/
lemma bucketPairs_eq (norm : Cplx → ℚ) (melData : List (Cplx × ℚ))
    (hd : 0 < melDiffOf melData) :
    bucketPairs norm melData
      = (bucketsSpec norm (melDiffOf melData) melData, true) := by
  rw [bucketPairs, outerLoop_spec norm melData _ hd (melData.length + 1) 0 []
    (by omega)]
  rw [List.reverse_nil, List.nil_append, List.drop_zero]

lemma bucketsSpec_cons (norm : Cplx → ℚ) (melDiff : ℚ) (hd : 0 < melDiff)
    (x : Cplx × ℚ) (xs : List (Cplx × ℚ)) :
    bucketsSpec norm melDiff (x :: xs)
      = ((((x :: xs).takeWhile fun y => decide (y.2 < x.2 + melDiff)).map
            fun y => norm y.1).sum,
          ((x :: xs).takeWhile fun y => decide (y.2 < x.2 + melDiff)).length)
        :: bucketsSpec norm melDiff
            ((x :: xs).dropWhile fun y => decide (y.2 < x.2 + melDiff)) := by
  rw [bucketsSpec, dif_pos hd]

lemma bucketsSpec_dropWhile_shorter (melDiff : ℚ) (hd : 0 < melDiff)
    (x : Cplx × ℚ) (xs : List (Cplx × ℚ)) :
    ((x :: xs).dropWhile fun y => decide (y.2 < x.2 + melDiff)).length
      ≤ xs.length := by
  rw [List.dropWhile_cons, if_pos (by simp only [decide_eq_true_eq]; linarith)]
  exact (List.dropWhile_sublist _).length_le

lemma bucketsSpec_head_len (melDiff : ℚ) (hd : 0 < melDiff)
    (x : Cplx × ℚ) (xs : List (Cplx × ℚ)) :
    1 ≤ ((x :: xs).takeWhile fun y => decide (y.2 < x.2 + melDiff)).length := by
  rw [List.takeWhile_cons, if_pos (by simp only [decide_eq_true_eq]; linarith)]
  simp

lemma bucketsSpec_counts (norm : Cplx → ℚ) (melDiff : ℚ) (hd : 0 < melDiff) :
    ∀ (n : ℕ) (l : List (Cplx × ℚ)), l.length ≤ n →
      ∀ p ∈ bucketsSpec norm melDiff l, 1 ≤ p.2 := by
  intro n
  induction n with
  | zero =>
    intro l hl p hp
    have hnil : l = [] := List.length_eq_zero.mp (Nat.le_zero.mp hl)
    rw [hnil] at hp
    simp [bucketsSpec] at hp
  | succ n ih =>
    intro l hl p hp
    match l with
    | [] => simp [bucketsSpec] at hp
    | x :: xs =>
      rw [bucketsSpec_cons norm melDiff hd] at hp
      rcases List.mem_cons.mp hp with hhd | htl
      · rw [hhd]
        exact bucketsSpec_head_len melDiff hd x xs
      · exact ih _ (by
          have := bucketsSpec_dropWhile_shorter melDiff hd x xs
          simp only [List.length_cons] at hl
          omega) p htl

lemma bucketsSpec_length_le (norm : Cplx → ℚ) (melDiff : ℚ)
    (hd : 0 < melDiff) :
    ∀ (n : ℕ) (l : List (Cplx × ℚ)), l.length ≤ n →
      (bucketsSpec norm melDiff l).length ≤ l.length := by
  intro n
  induction n with
  | zero =>
    intro l hl
    have hnil : l = [] := List.length_eq_zero.mp (Nat.le_zero.mp hl)
    rw [hnil]
    simp [bucketsSpec]
  | succ n ih =>
    intro l hl
    match l with
    | [] => simp [bucketsSpec]
    | x :: xs =>
      rw [bucketsSpec_cons norm melDiff hd]
      have hshort := bucketsSpec_dropWhile_shorter melDiff hd x xs
      have := ih _ (by simp only [List.length_cons] at hl; omega :
        ((x :: xs).dropWhile fun y => decide (y.2 < x.2 + melDiff)).length ≤ n)
      simp only [List.length_cons]
      omega

lemma bucketsSpec_ne_nil (norm : Cplx → ℚ) (melDiff : ℚ) (hd : 0 < melDiff)
    (l : List (Cplx × ℚ)) (hl : l ≠ []) :
    bucketsSpec norm melDiff l ≠ [] := by
  match l with
  | [] => exact absurd rfl hl
  | x :: xs => rw [bucketsSpec_cons norm melDiff hd]; simp

lemma bucketsSpec_sum (norm : Cplx → ℚ) (melDiff : ℚ) (hd : 0 < melDiff) :
    ∀ (n : ℕ) (l : List (Cplx × ℚ)), l.length ≤ n →
      ((bucketsSpec norm melDiff l).map Prod.fst).sum
        = (l.map fun y => norm y.1).sum := by
  intro n
  induction n with
  | zero =>
    intro l hl
    have hnil : l = [] := List.length_eq_zero.mp (Nat.le_zero.mp hl)
    rw [hnil]
    simp [bucketsSpec]
  | succ n ih =>
    intro l hl
    match l with
    | [] => simp [bucketsSpec]
    | x :: xs =>
      rw [bucketsSpec_cons norm melDiff hd]
      have hshort := bucketsSpec_dropWhile_shorter melDiff hd x xs
      rw [List.map_cons, List.sum_cons,
        ih _ (by simp only [List.length_cons] at hl; omega)]
      conv_rhs =>
        rw [← List.takeWhile_append_dropWhile
          (p := fun y => decide (y.2 < x.2 + melDiff)) (l := x :: xs)]
      rw [List.map_append, List.sum_append]

lemma bucketsSpec_fst_nonneg (norm : Cplx → ℚ) (melDiff : ℚ)
    (hd : 0 < melDiff) :
    ∀ (n : ℕ) (l : List (Cplx × ℚ)), l.length ≤ n →
      (∀ y ∈ l, 0 ≤ norm y.1) →
      ∀ p ∈ bucketsSpec norm melDiff l, 0 ≤ p.1 := by
  intro n
  induction n with
  | zero =>
    intro l hl _ p hp
    have hnil : l = [] := List.length_eq_zero.mp (Nat.le_zero.mp hl)
    rw [hnil] at hp
    simp [bucketsSpec] at hp
  | succ n ih =>
    intro l hl hnn p hp
    match l with
    | [] => simp [bucketsSpec] at hp
    | x :: xs =>
      rw [bucketsSpec_cons norm melDiff hd] at hp
      rcases List.mem_cons.mp hp with hhd | htl
      · rw [hhd]
        apply List.sum_nonneg
        intro v hv
        obtain ⟨y, hy, rfl⟩ := List.mem_map.mp hv
        exact hnn y ((List.takeWhile_sublist _).subset hy)
      · exact ih _ (by
            have := bucketsSpec_dropWhile_shorter melDiff hd x xs
            simp only [List.length_cons] at hl
            omega)
          (fun y hy => hnn y ((List.dropWhile_sublist _).subset hy)) p htl

lemma le_foldl_max (xs : List ℚ) : ∀ a : ℚ, a ≤ xs.foldl max a := by
  induction xs with
  | nil => intro a; simp
  | cons y ys ih =>
    intro a
    exact le_trans (le_max_left a y) (ih (max a y))

lemma mem_le_foldl_max (xs : List ℚ) : ∀ (a x : ℚ), x ∈ xs →
    x ≤ xs.foldl max a := by
  induction xs with
  | nil => intro a x hx; simp at hx
  | cons y ys ih =>
    intro a x hx
    rcases List.mem_cons.mp hx with rfl | hmem
    · exact le_trans (le_max_right a x) (le_foldl_max ys (max a x))
    · exact ih (max a y) x hmem

lemma foldl_max_mem (xs : List ℚ) : ∀ a : ℚ,
    xs.foldl max a = a ∨ xs.foldl max a ∈ xs := by
  induction xs with
  | nil => intro a; simp
  | cons y ys ih =>
    intro a
    rcases ih (max a y) with heq | hmem
    · rcases max_choice a y with hay | hay
      · left; rw [List.foldl_cons, heq, hay]
      · right; rw [List.foldl_cons, heq, hay]; exact List.mem_cons_self _ _
    · right
      exact List.mem_cons_of_mem _ hmem

lemma listMax_mem (l : List ℚ) (hl : l ≠ []) : listMax l ∈ l := by
  match l with
  | [] => exact absurd rfl hl
  | x :: xs =>
    rw [listMax]
    rcases foldl_max_mem xs x with heq | hmem
    · rw [heq]; exact List.mem_cons_self _ _
    · exact List.mem_cons_of_mem _ hmem

lemma le_listMax (l : List ℚ) (x : ℚ) (hx : x ∈ l) : x ≤ listMax l := by
  match l with
  | [] => simp at hx
  | y :: ys =>
    rw [listMax]
    rcases List.mem_cons.mp hx with rfl | hmem
    · exact le_foldl_max ys x
    · exact mem_le_foldl_max ys y x hmem

/-- Bucket averages as computed by `data_preprocess` (src/fft_renderer.rs
line 175): each pushed `sum / (j - i)`. -/
def averagedOf (norm : Cplx → ℚ) (ln : ℚ → ℚ) (self : FftRenderer) : List ℚ :=
  (bucketPairs norm (melMap ln self.inputData)).1.map (fun p => p.1 / (p.2 : ℚ))

lemma data_preprocess_render_data (norm : Cplx → ℚ) (ln : ℚ → ℚ)
    (self : FftRenderer) (hne : ¬self.inputData = []) :
    (FftRenderer.data_preprocess norm ln self).currentRenderData
      = ((List.range (averagedOf norm ln self).length).map
          (fun i : ℕ => self.currentSize.1
            / ((averagedOf norm ln self).length : ℚ) * (i : ℚ))).zip
        ((averagedOf norm ln self).map
          (fun x => x / listMax (averagedOf norm ln self)
            * self.currentSize.2)) := by
  simp only [FftRenderer.data_preprocess, if_neg hne, averagedOf]

lemma data_preprocess_keeps (norm : Cplx → ℚ) (ln : ℚ → ℚ)
    (self : FftRenderer) :
    (FftRenderer.data_preprocess norm ln self).inputData = self.inputData
    ∧ (FftRenderer.data_preprocess norm ln self).currentSize
        = self.currentSize := by
  by_cases hne : self.inputData = [] <;>
    simp [FftRenderer.data_preprocess, hne]

lemma averagedOf_eq_spec (norm : Cplx → ℚ) (ln : ℚ → ℚ) (self : FftRenderer)
    (hd : 0 < melDiffOf (melMap ln self.inputData)) :
    averagedOf norm ln self
      = (bucketsSpec norm (melDiffOf (melMap ln self.inputData))
          (melMap ln self.inputData)).map (fun p => p.1 / (p.2 : ℚ)) := by
  rw [averagedOf, bucketPairs_eq _ _ hd]

lemma averagedOf_ne_nil (norm : Cplx → ℚ) (ln : ℚ → ℚ) (self : FftRenderer)
    (hne : self.inputData ≠ [])
    (hd : 0 < melDiffOf (melMap ln self.inputData)) :
    averagedOf norm ln self ≠ [] := by
  rw [averagedOf_eq_spec norm ln self hd]
  intro hcon
  exact bucketsSpec_ne_nil norm _ hd (melMap ln self.inputData)
    (by simp [melMap]; exact hne) (List.map_eq_nil_iff.mp hcon)

lemma averagedOf_length_bounds (norm : Cplx → ℚ) (ln : ℚ → ℚ)
    (self : FftRenderer) (hne : self.inputData ≠ [])
    (hd : 0 < melDiffOf (melMap ln self.inputData)) :
    1 ≤ (averagedOf norm ln self).length
    ∧ (averagedOf norm ln self).length ≤ self.inputData.length := by
  constructor
  · exact List.length_pos.mpr (averagedOf_ne_nil norm ln self hne hd)
  · rw [averagedOf_eq_spec norm ln self hd, List.length_map]
    have := bucketsSpec_length_le norm _ hd (melMap ln self.inputData).length
      (melMap ln self.inputData) le_rfl
    simpa [melMap] using this

lemma averagedOf_nonneg (norm : Cplx → ℚ) (ln : ℚ → ℚ) (self : FftRenderer)
    (hd : 0 < melDiffOf (melMap ln self.inputData))
    (hnn : ∀ y ∈ self.inputData, 0 ≤ norm y.1) :
    ∀ v ∈ averagedOf norm ln self, 0 ≤ v := by
  intro v hv
  rw [averagedOf_eq_spec norm ln self hd] at hv
  obtain ⟨p, hp, rfl⟩ := List.mem_map.mp hv
  have hfst : 0 ≤ p.1 := by
    refine bucketsSpec_fst_nonneg norm _ hd (melMap ln self.inputData).length
      (melMap ln self.inputData) le_rfl ?_ p hp
    intro y hy
    obtain ⟨x, hx, rfl⟩ := List.mem_map.mp hy
    exact hnn x hx
  exact div_nonneg hfst (by positivity)

lemma averagedOf_exists_pos (norm : Cplx → ℚ) (ln : ℚ → ℚ)
    (self : FftRenderer) (hd : 0 < melDiffOf (melMap ln self.inputData))
    (hnn : ∀ y ∈ self.inputData, 0 ≤ norm y.1)
    (hpos : ∃ y ∈ self.inputData, 0 < norm y.1) :
    ∃ v ∈ averagedOf norm ln self, 0 < v := by
  obtain ⟨y, hy, hypos⟩ := hpos
  have hnnmel : ∀ z ∈ melMap ln self.inputData, 0 ≤ norm z.1 := by
    intro z hz
    obtain ⟨x, hx, rfl⟩ := List.mem_map.mp hz
    exact hnn x hx
  have hymel : (y.1, 1127 * ln (1 + y.2 / 700)) ∈ melMap ln self.inputData :=
    List.mem_map.mpr ⟨y, hy, rfl⟩
  have hsumpos : 0 < ((melMap ln self.inputData).map fun z => norm z.1).sum := by
    have hle : norm y.1 ≤ ((melMap ln self.inputData).map fun z => norm z.1).sum := by
      refine List.single_le_sum ?_ _ (List.mem_map.mpr ⟨_, hymel, rfl⟩)
      intro x hx
      obtain ⟨z, hz, rfl⟩ := List.mem_map.mp hx
      exact hnnmel z hz
    linarith
  have hsumeq := bucketsSpec_sum norm _ hd (melMap ln self.inputData).length
    (melMap ln self.inputData) le_rfl
  by_contra hcon
  push_neg at hcon
  have hall : ∀ p ∈ bucketsSpec norm (melDiffOf (melMap ln self.inputData))
      (melMap ln self.inputData), p.1 ≤ 0 := by
    intro p hp
    have hcnt : 1 ≤ p.2 := bucketsSpec_counts norm _ hd
      (melMap ln self.inputData).length (melMap ln self.inputData) le_rfl p hp
    have hv := hcon (p.1 / (p.2 : ℚ)) (by
      rw [averagedOf_eq_spec norm ln self hd]
      exact List.mem_map.mpr ⟨p, hp, rfl⟩)
    by_contra hfpos
    push_neg at hfpos
    have : 0 < p.1 / (p.2 : ℚ) := div_pos hfpos (by exact_mod_cast hcnt)
    linarith
  have hsumnp : ((bucketsSpec norm (melDiffOf (melMap ln self.inputData))
      (melMap ln self.inputData)).map Prod.fst).sum ≤ 0 := by
    have := List.sum_le_sum (l := bucketsSpec norm
        (melDiffOf (melMap ln self.inputData)) (melMap ln self.inputData))
      (f := Prod.fst) (g := fun _ => (0 : ℚ)) hall
    simpa using this
  rw [hsumeq] at hsumnp
  linarith

/-- On a single-bin batch the per-bucket mel width is `0`, the inner scan
consumes nothing, `i` never advances, and the outer loop never terminates:
the flag is `false` for every fuel. -/
lemma outerLoop_stuck (norm : Cplx → ℚ) (b : Cplx × ℚ) (melDiff : ℚ)
    (hd : melDiff ≤ 0) :
    ∀ (fuel : ℕ) (acc : List (ℚ × ℕ)),
      (outerLoop norm [b] melDiff fuel 0 acc).2 = false := by
  intro fuel
  induction fuel with
  | zero => intro acc; simp [outerLoop]
  | succ fuel ih =>
    intro acc
    rw [outerLoop, if_pos (by simp)]
    have hr : innerScan norm [b] ((([b] : List (Cplx × ℚ)).getD 0 dfltBin).2
        + melDiff) 0 0 = (0, 0) := by
      rw [innerScan, List.drop_zero, innerScanAux,
        if_neg (not_lt.mpr (by simp [List.getD]; linarith))]
    rw [hr]
    exact ih _

/-- C10: the bucket-averaging loop terminates with every per-bucket divisor
`j - i` at least one, for every batch whose per-bucket mel width
`(last_mel - first_mel) / 150` is positive (equivalently, last mel strictly
above first mel): each outer iteration then consumes at least the bin at `i`.
The precondition is necessary: a non-empty single-bin batch has width `0`,
and the loop then runs forever (flag `false` at every fuel), so non-emptiness
alone does not suffice. -/
theorem C10_bucket_loop_termination :
    (∀ (norm : Cplx → ℚ) (melData : List (Cplx × ℚ)),
      0 < melDiffOf melData →
        (bucketPairs norm melData).2 = true
        ∧ ∀ p ∈ (bucketPairs norm melData).1, 1 ≤ p.2)
    ∧ (∀ fuel : ℕ,
        (outerLoop cNorm (melMap cLn [((⟨3, 4⟩ : Cplx), 300)])
          (melDiffOf (melMap cLn [((⟨3, 4⟩ : Cplx), 300)])) fuel 0 []).2
          = false) := by
  constructor
  · intro norm melData hd
    rw [bucketPairs_eq norm melData hd]
    refine ⟨rfl, ?_⟩
    exact bucketsSpec_counts norm _ hd melData.length melData le_rfl
  · intro fuel
    have hmd : melMap cLn [((⟨3, 4⟩ : Cplx), 300)]
        = [((⟨3, 4⟩ : Cplx), 1610)] := by norm_num [melMap, cLn]
    have hdf : melDiffOf (melMap cLn [((⟨3, 4⟩ : Cplx), 300)]) = 0 := by
      norm_num [melDiffOf, melMap, cLn, dfltBin]
    rw [hdf, hmd]
    exact outerLoop_stuck cNorm _ 0 le_rfl fuel []

/-- C10 witness: a concrete two-bin batch with positive mel width. -/
theorem C10_witness :
    0 < melDiffOf (melMap cLn [((⟨1, 0⟩ : Cplx), 100), ((⟨3, 0⟩ : Cplx), 5000)])
    ∧ ((bucketPairs cNorm
          (melMap cLn [((⟨1, 0⟩ : Cplx), 100), ((⟨3, 0⟩ : Cplx), 5000)])).2
          = true
      ∧ ∀ p ∈ (bucketPairs cNorm
          (melMap cLn [((⟨1, 0⟩ : Cplx), 100), ((⟨3, 0⟩ : Cplx), 5000)])).1,
          1 ≤ p.2) :=
  ⟨by norm_num [melDiffOf, melMap, cLn, dfltBin],
    C10_bucket_loop_termination.1 cNorm _
      (by norm_num [melDiffOf, melMap, cLn, dfltBin])⟩

/-- C2 counterexample: there is no zero-contribution guard.  On a single-bin
batch the mel width is `0`, the very first bucket receives zero contributing
bins, and the code pushes `sum / (j - i)` with `j - i = 0` — a division by
zero (`NaN` in the `f32` source) — while the loop never terminates (flag
`false`). -/
theorem C2_counterexample :
    ((bucketPairs cNorm (melMap cLn [((⟨3, 4⟩ : Cplx), 300)])).1.headD
        (0, 1)).2 = 0
    ∧ (bucketPairs cNorm (melMap cLn [((⟨3, 4⟩ : Cplx), 300)])).2 = false := by
  have heval : bucketPairs cNorm (melMap cLn [((⟨3, 4⟩ : Cplx), 300)])
      = ([(0, 0), (0, 0)], false) := by
    norm_num [bucketPairs, melMap, cLn, melDiffOf, dfltBin, outerLoop,
      innerScan, innerScanAux, List.getD_cons_zero]
  rw [heval]
  norm_num

/-- C2 (amended): bucket averaging has no explicit zero-contribution guard.
Instead, whenever the per-bucket mel width is positive every produced bucket
receives at least one contributing bin, so the average `sum / (j - i)` never
divides by zero; for a batch whose mel width is not positive (e.g. a single
bin) the first bucket's divisor is `0` and the division by zero is reached. -/
theorem C2_no_guard_but_positive_width_safe :
    (∀ (norm : Cplx → ℚ) (melData : List (Cplx × ℚ)),
      0 < melDiffOf melData →
        ∀ p ∈ (bucketPairs norm melData).1, 1 ≤ p.2)
    ∧ ((bucketPairs cNorm (melMap cLn [((⟨3, 4⟩ : Cplx), 300)])).1.headD
        (0, 1)).2 = 0 := by
  constructor
  · intro norm melData hd
    rw [bucketPairs_eq norm melData hd]
    exact bucketsSpec_counts norm _ hd melData.length melData le_rfl
  · have heval : bucketPairs cNorm (melMap cLn [((⟨3, 4⟩ : Cplx), 300)])
        = ([(0, 0), (0, 0)], false) := by
      norm_num [bucketPairs, melMap, cLn, melDiffOf, dfltBin, outerLoop,
        innerScan, innerScanAux, List.getD_cons_zero]
    rw [heval]
    norm_num

/-- C2 witness: a concrete batch with positive mel width, on which every
bucket divisor is at least one. -/
theorem C2_witness :
    0 < melDiffOf (melMap cLn [((⟨2, 0⟩ : Cplx), 40), ((⟨1, 1⟩ : Cplx), 9000)])
    ∧ ∀ p ∈ (bucketPairs cNorm
        (melMap cLn [((⟨2, 0⟩ : Cplx), 40), ((⟨1, 1⟩ : Cplx), 9000)])).1,
        1 ≤ p.2 :=
  ⟨by norm_num [melDiffOf, melMap, cLn, dfltBin],
    C2_no_guard_but_positive_width_safe.1 cNorm _
      (by norm_num [melDiffOf, melMap, cLn, dfltBin])⟩

lemma evalA_melMap :
    melMap cLn [((⟨1, 0⟩ : Cplx), 100), ((⟨3, 0⟩ : Cplx), 5000)]
      = [((⟨1, 0⟩ : Cplx), 1288), ((⟨3, 0⟩ : Cplx), 9177)] := by
  norm_num [melMap, cLn]

lemma evalA_melDiff :
    melDiffOf (melMap cLn [((⟨1, 0⟩ : Cplx), 100), ((⟨3, 0⟩ : Cplx), 5000)])
      = 7889 / 150 := by
  rw [evalA_melMap]
  norm_num [melDiffOf, dfltBin]

lemma evalA_bucketsSpec :
    bucketsSpec cNorm (7889 / 150)
        [((⟨1, 0⟩ : Cplx), 1288), ((⟨3, 0⟩ : Cplx), 9177)]
      = [(1, 1), (9, 1)] := by
  rw [bucketsSpec_cons _ _ (by norm_num)]
  norm_num [List.takeWhile_cons, List.dropWhile_cons, cNorm]
  rw [bucketsSpec_cons _ _ (by norm_num)]
  norm_num [List.takeWhile_cons, List.dropWhile_cons, cNorm, bucketsSpec]

lemma evalA_bucketPairs :
    bucketPairs cNorm
        (melMap cLn [((⟨1, 0⟩ : Cplx), 100), ((⟨3, 0⟩ : Cplx), 5000)])
      = ([(1, 1), (9, 1)], true) := by
  rw [bucketPairs_eq _ _ (by rw [evalA_melDiff]; norm_num), evalA_melDiff,
    evalA_melMap, evalA_bucketsSpec]

lemma evalA_averaged :
    averagedOf cNorm cLn
        ⟨[((⟨1, 0⟩ : Cplx), 100), ((⟨3, 0⟩ : Cplx), 5000)], [], (300, 100)⟩
      = [1, 9] := by
  rw [averagedOf]
  norm_num [evalA_bucketPairs]

lemma evalA_render :
    (FftRenderer.data_preprocess cNorm cLn
        ⟨[((⟨1, 0⟩ : Cplx), 100), ((⟨3, 0⟩ : Cplx), 5000)], [],
          (300, 100)⟩).currentRenderData
      = [(0, 100 / 9), (150, 100)] := by
  rw [data_preprocess_render_data _ _ _ (by simp), evalA_averaged]
  norm_num [listMax, List.range_succ]

/-- C3 counterexample: on a concrete non-empty two-bin batch, bucket
averaging produces 2 display buckets, not 150, and the second point's X
coordinate is `width / 2 * 1 = 150`, not `width / 150 * 1 = 2`: the bucket
count and the X spacing depend on the input's resolution. -/
theorem C3_counterexample :
    (FftRenderer.data_preprocess cNorm cLn
        ⟨[((⟨1, 0⟩ : Cplx), 100), ((⟨3, 0⟩ : Cplx), 5000)], [],
          (300, 100)⟩).currentRenderData.length = 2
    ∧ (2 : ℕ) ≠ 150
    ∧ ((FftRenderer.data_preprocess cNorm cLn
        ⟨[((⟨1, 0⟩ : Cplx), 100), ((⟨3, 0⟩ : Cplx), 5000)], [],
          (300, 100)⟩).currentRenderData.map Prod.fst).getD 1 0 = 150
    ∧ (150 : ℚ) ≠ 300 / 150 * 1 := by
  rw [evalA_render]
  refine ⟨rfl, by norm_num, by norm_num, by norm_num⟩

/-- C3 (amended): for every non-empty batch with positive per-bucket mel
width, bucket averaging produces a data-dependent number of display buckets
— at least one and at most the number of input bins, each bucket being the
maximal run of remaining bins within `(last_mel - first_mel) / 150` above
the bucket's own first bin's mel — and the X coordinates are evenly spaced
across the viewport width with step `width / bucket_count`, i.e. the X of
point `i` is `width / bucket_count * i`. -/
theorem C3_bucket_count_data_dependent (norm : Cplx → ℚ) (ln : ℚ → ℚ)
    (self : FftRenderer) (hne : self.inputData ≠ [])
    (hd : 0 < melDiffOf (melMap ln self.inputData)) :
    1 ≤ (FftRenderer.data_preprocess norm ln self).currentRenderData.length
    ∧ (FftRenderer.data_preprocess norm ln self).currentRenderData.length
        ≤ self.inputData.length
    ∧ (FftRenderer.data_preprocess norm ln self).currentRenderData.map Prod.fst
        = (List.range
            (FftRenderer.data_preprocess norm ln
              self).currentRenderData.length).map
            (fun i : ℕ => self.currentSize.1
              / ((FftRenderer.data_preprocess norm ln
                  self).currentRenderData.length : ℚ) * (i : ℚ)) := by
  have hout := data_preprocess_render_data norm ln self hne
  have hlen : (FftRenderer.data_preprocess norm ln
        self).currentRenderData.length
      = (averagedOf norm ln self).length := by
    rw [hout, List.length_zip, List.length_map, List.length_range,
      List.length_map, min_self]
  obtain ⟨h1, h2⟩ := averagedOf_length_bounds norm ln self hne hd
  refine ⟨by omega, by omega, ?_⟩
  rw [hlen, hout]
  exact List.map_fst_zip _ _ (by simp)

/-- C3 witness: the amended statement at the concrete two-bin batch. -/
theorem C3_witness :
    ((⟨[((⟨1, 0⟩ : Cplx), 100), ((⟨3, 0⟩ : Cplx), 5000)], [], (300, 100)⟩ :
        FftRenderer).inputData ≠ []
      ∧ 0 < melDiffOf (melMap cLn
          (⟨[((⟨1, 0⟩ : Cplx), 100), ((⟨3, 0⟩ : Cplx), 5000)], [],
            (300, 100)⟩ : FftRenderer).inputData))
    ∧ (1 ≤ (FftRenderer.data_preprocess cNorm cLn
          ⟨[((⟨1, 0⟩ : Cplx), 100), ((⟨3, 0⟩ : Cplx), 5000)], [],
            (300, 100)⟩).currentRenderData.length
      ∧ (FftRenderer.data_preprocess cNorm cLn
          ⟨[((⟨1, 0⟩ : Cplx), 100), ((⟨3, 0⟩ : Cplx), 5000)], [],
            (300, 100)⟩).currentRenderData.length
          ≤ (⟨[((⟨1, 0⟩ : Cplx), 100), ((⟨3, 0⟩ : Cplx), 5000)], [],
            (300, 100)⟩ : FftRenderer).inputData.length
      ∧ (FftRenderer.data_preprocess cNorm cLn
          ⟨[((⟨1, 0⟩ : Cplx), 100), ((⟨3, 0⟩ : Cplx), 5000)], [],
            (300, 100)⟩).currentRenderData.map Prod.fst
          = (List.range (FftRenderer.data_preprocess cNorm cLn
              ⟨[((⟨1, 0⟩ : Cplx), 100), ((⟨3, 0⟩ : Cplx), 5000)], [],
                (300, 100)⟩).currentRenderData.length).map
              (fun i : ℕ => (⟨[((⟨1, 0⟩ : Cplx), 100), ((⟨3, 0⟩ : Cplx), 5000)],
                  [], (300, 100)⟩ : FftRenderer).currentSize.1
                / ((FftRenderer.data_preprocess cNorm cLn
                    ⟨[((⟨1, 0⟩ : Cplx), 100), ((⟨3, 0⟩ : Cplx), 5000)], [],
                      (300, 100)⟩).currentRenderData.length : ℚ)
                * (i : ℚ))) :=
  ⟨⟨by simp, by norm_num [melDiffOf, melMap, cLn, dfltBin]⟩,
    C3_bucket_count_data_dependent cNorm cLn _ (by simp)
      (by norm_num [melDiffOf, melMap, cLn, dfltBin])⟩

/-- C4 counterexample: on a concrete two-bin batch at viewport height 100,
the maximal bucket's output Y value is `100` — `(value / max) * height` with
no Y-axis inversion — whereas the claimed `height - value - 1` would give
`100 - 100 - 1 = -1`. -/
theorem C4_counterexample :
    ((FftRenderer.data_preprocess cNorm cLn
        ⟨[((⟨1, 0⟩ : Cplx), 100), ((⟨3, 0⟩ : Cplx), 5000)], [],
          (300, 100)⟩).currentRenderData.map Prod.snd).getD 1 0 = 100
    ∧ (100 : ℚ) ≠ 100 - 100 - 1 := by
  rw [evalA_render]
  refine ⟨by norm_num, by norm_num⟩

/-- C4 (amended): for every non-empty batch with positive per-bucket mel
width, non-negative bin magnitudes of which at least one is positive, and a
non-negative viewport height, every output Y value is the bucket value
divided by the maximal bucket value and multiplied by the height — so all Y
values lie in `[0, height]` and at least one equals `height` exactly; the
source performs no Y-axis inversion (`height - value - 1` appears nowhere). -/
theorem C4_normalize_scale_no_inversion (norm : Cplx → ℚ) (ln : ℚ → ℚ)
    (self : FftRenderer) (hne : self.inputData ≠ [])
    (hd : 0 < melDiffOf (melMap ln self.inputData))
    (hnn : ∀ y ∈ self.inputData, 0 ≤ norm y.1)
    (hpos : ∃ y ∈ self.inputData, 0 < norm y.1)
    (hh : 0 ≤ self.currentSize.2) :
    (∀ p ∈ (FftRenderer.data_preprocess norm ln self).currentRenderData,
      0 ≤ p.2 ∧ p.2 ≤ self.currentSize.2)
    ∧ (∃ p ∈ (FftRenderer.data_preprocess norm ln self).currentRenderData,
        p.2 = self.currentSize.2)
    ∧ (FftRenderer.data_preprocess norm ln self).currentRenderData.map
        Prod.snd
      = (averagedOf norm ln self).map
          (fun v => v / listMax (averagedOf norm ln self)
            * self.currentSize.2) := by
  have hout := data_preprocess_render_data norm ln self hne
  have hsnd : (FftRenderer.data_preprocess norm ln self).currentRenderData.map
      Prod.snd
      = (averagedOf norm ln self).map
        (fun v => v / listMax (averagedOf norm ln self)
          * self.currentSize.2) := by
    rw [hout]
    exact List.map_snd_zip _ _ (by simp)
  obtain ⟨v0, hv0mem, hv0pos⟩ :=
    averagedOf_exists_pos norm ln self hd hnn hpos
  have hMpos : 0 < listMax (averagedOf norm ln self) :=
    lt_of_lt_of_le hv0pos (le_listMax _ _ hv0mem)
  refine ⟨?_, ?_, hsnd⟩
  · intro p hp
    have hp2 : p.2 ∈ (FftRenderer.data_preprocess norm ln
        self).currentRenderData.map Prod.snd := List.mem_map_of_mem _ hp
    rw [hsnd] at hp2
    obtain ⟨v, hvmem, hveq⟩ := List.mem_map.mp hp2
    have hvnn : 0 ≤ v := averagedOf_nonneg norm ln self hd hnn v hvmem
    have hvle : v ≤ listMax (averagedOf norm ln self) := le_listMax _ _ hvmem
    constructor
    · rw [← hveq]
      exact mul_nonneg (div_nonneg hvnn hMpos.le) hh
    · rw [← hveq]
      exact mul_le_of_le_one_left hh ((div_le_one hMpos).mpr hvle)
  · have hMmem : listMax (averagedOf norm ln self) ∈ averagedOf norm ln self :=
      listMax_mem _ (averagedOf_ne_nil norm ln self hne hd)
    have hmem2 : listMax (averagedOf norm ln self)
          / listMax (averagedOf norm ln self) * self.currentSize.2
        ∈ (FftRenderer.data_preprocess norm ln self).currentRenderData.map
          Prod.snd := by
      rw [hsnd]
      exact List.mem_map_of_mem _ hMmem
    rw [div_self (ne_of_gt hMpos), one_mul] at hmem2
    obtain ⟨p, hpmem, hpeq⟩ := List.mem_map.mp hmem2
    exact ⟨p, hpmem, hpeq⟩

/-- C4 witness: the amended statement at the concrete two-bin batch. -/
theorem C4_witness :
    ((⟨[((⟨1, 0⟩ : Cplx), 100), ((⟨3, 0⟩ : Cplx), 5000)], [], (300, 100)⟩ :
        FftRenderer).inputData ≠ []
      ∧ 0 < melDiffOf (melMap cLn
          (⟨[((⟨1, 0⟩ : Cplx), 100), ((⟨3, 0⟩ : Cplx), 5000)], [],
            (300, 100)⟩ : FftRenderer).inputData)
      ∧ (∀ y ∈ (⟨[((⟨1, 0⟩ : Cplx), 100), ((⟨3, 0⟩ : Cplx), 5000)], [],
            (300, 100)⟩ : FftRenderer).inputData, 0 ≤ cNorm y.1)
      ∧ (∃ y ∈ (⟨[((⟨1, 0⟩ : Cplx), 100), ((⟨3, 0⟩ : Cplx), 5000)], [],
            (300, 100)⟩ : FftRenderer).inputData, 0 < cNorm y.1))
    ∧ ((∀ p ∈ (FftRenderer.data_preprocess cNorm cLn
          ⟨[((⟨1, 0⟩ : Cplx), 100), ((⟨3, 0⟩ : Cplx), 5000)], [],
            (300, 100)⟩).currentRenderData,
        0 ≤ p.2 ∧ p.2 ≤ (⟨[((⟨1, 0⟩ : Cplx), 100), ((⟨3, 0⟩ : Cplx), 5000)],
          [], (300, 100)⟩ : FftRenderer).currentSize.2)
      ∧ (∃ p ∈ (FftRenderer.data_preprocess cNorm cLn
          ⟨[((⟨1, 0⟩ : Cplx), 100), ((⟨3, 0⟩ : Cplx), 5000)], [],
            (300, 100)⟩).currentRenderData,
          p.2 = (⟨[((⟨1, 0⟩ : Cplx), 100), ((⟨3, 0⟩ : Cplx), 5000)], [],
            (300, 100)⟩ : FftRenderer).currentSize.2)
      ∧ (FftRenderer.data_preprocess cNorm cLn
          ⟨[((⟨1, 0⟩ : Cplx), 100), ((⟨3, 0⟩ : Cplx), 5000)], [],
            (300, 100)⟩).currentRenderData.map Prod.snd
        = (averagedOf cNorm cLn
            ⟨[((⟨1, 0⟩ : Cplx), 100), ((⟨3, 0⟩ : Cplx), 5000)], [],
              (300, 100)⟩).map
            (fun v => v / listMax (averagedOf cNorm cLn
              ⟨[((⟨1, 0⟩ : Cplx), 100), ((⟨3, 0⟩ : Cplx), 5000)], [],
                (300, 100)⟩)
              * (⟨[((⟨1, 0⟩ : Cplx), 100), ((⟨3, 0⟩ : Cplx), 5000)], [],
                (300, 100)⟩ : FftRenderer).currentSize.2)) :=
  ⟨⟨by simp, by norm_num [melDiffOf, melMap, cLn, dfltBin],
      by norm_num [cNorm], ⟨((⟨1, 0⟩ : Cplx), 100), by norm_num [cNorm]⟩⟩,
    C4_normalize_scale_no_inversion cNorm cLn _ (by simp)
      (by norm_num [melDiffOf, melMap, cLn, dfltBin]) (by norm_num [cNorm])
      ⟨((⟨1, 0⟩ : Cplx), 100), by norm_num [cNorm]⟩ (by norm_num)⟩

lemma map_eq_self_of_mem {α : Type} (f : α → α) (l : List α)
    (h : ∀ x ∈ l, f x = x) : l.map f = l := by
  induction l with
  | nil => rfl
  | cons x xs ih =>
    rw [List.map_cons, h x (List.mem_cons_self x xs),
      ih (fun y hy => h y (List.mem_cons_of_mem _ hy))]

lemma data_preprocess_of_empty (norm : Cplx → ℚ) (ln : ℚ → ℚ)
    (t : FftRenderer) (ht : t.inputData = []) :
    FftRenderer.data_preprocess norm ln t = t := by
  simp [FftRenderer.data_preprocess, ht]

lemma data_preprocess_crd_congr (norm : Cplx → ℚ) (ln : ℚ → ℚ)
    (s t : FftRenderer) (hin : s.inputData = t.inputData)
    (hsz : s.currentSize = t.currentSize) (hne : t.inputData ≠ []) :
    (FftRenderer.data_preprocess norm ln s).currentRenderData
      = (FftRenderer.data_preprocess norm ln t).currentRenderData := by
  have hnes : ¬s.inputData = [] := by rw [hin]; exact hne
  have havg : averagedOf norm ln s = averagedOf norm ln t := by
    rw [averagedOf, averagedOf, hin]
  rw [data_preprocess_render_data norm ln s hnes,
    data_preprocess_render_data norm ln t hne, havg, hsz]

/-- With a non-empty input slot, `render` always ends in `data_preprocess`,
so the resulting DisplayCurve is recomputed from the retained batch at the
new viewport size, whatever curve was there before: the slot is never
drained (`data_preprocess` only reads it), so this is what happens on every
resize after the first batch arrived, new batch or not. -/
lemma render_recomputes (norm : Cplx → ℚ) (ln : ℚ → ℚ) (s : FftRenderer)
    (size : ℚ × ℚ) (hne : s.inputData ≠ []) :
    (FftRenderer.render norm ln s size).currentRenderData
      = (FftRenderer.data_preprocess norm ln
          { s with currentSize := size }).currentRenderData := by
  rw [FftRenderer.render]
  by_cases hcs : s.currentSize ≠ size
  · rw [if_pos hcs]
    exact data_preprocess_crd_congr norm ln (s.resize size)
      { s with currentSize := size } rfl rfl hne
  · rw [if_neg hcs]
    exact data_preprocess_crd_congr norm ln s { s with currentSize := size }
      rfl (not_not.mp hcs) hne

lemma render_input (norm : Cplx → ℚ) (ln : ℚ → ℚ) (s : FftRenderer)
    (size : ℚ × ℚ) :
    (FftRenderer.render norm ln s size).inputData = s.inputData := by
  rw [FftRenderer.render]
  by_cases hcs : s.currentSize ≠ size
  · rw [if_pos hcs, (data_preprocess_keeps norm ln (s.resize size)).1]
    rfl
  · rw [if_neg hcs, (data_preprocess_keeps norm ln s).1]

/-- Preprocessing scales linearly in the viewport: recomputing the curve
from the same batch at a new size equals the proportional rescale of the
curve computed at the old size (bucket averages are size-independent, X is
linear in the width, Y in the height; exact over exact arithmetic). -/
lemma data_preprocess_linear (norm : Cplx → ℚ) (ln : ℚ → ℚ)
    (self : FftRenderer) (size : ℚ × ℚ) (hne : self.inputData ≠ [])
    (hd : 0 < melDiffOf (melMap ln self.inputData))
    (hw : self.currentSize.1 ≠ 0) (hh : self.currentSize.2 ≠ 0) :
    (FftRenderer.data_preprocess norm ln
        { self with currentSize := size }).currentRenderData
      = ((FftRenderer.data_preprocess norm ln self).currentRenderData).map
          (fun p => (p.1 * (size.1 / self.currentSize.1),
            p.2 * (size.2 / self.currentSize.2))) := by
  have havg : averagedOf norm ln { self with currentSize := size }
      = averagedOf norm ln self := by
    rw [averagedOf, averagedOf]
  have hn0 : ((averagedOf norm ln self).length : ℚ) ≠ 0 := by
    have := (averagedOf_length_bounds norm ln self hne hd).1
    exact_mod_cast Nat.cast_ne_zero.mpr (by omega)
  rw [data_preprocess_render_data norm ln { self with currentSize := size }
      hne,
    data_preprocess_render_data norm ln self hne, havg,
    show ({ self with currentSize := size } : FftRenderer).currentSize = size
      from rfl]
  rw [show (fun p : ℚ × ℚ => (p.1 * (size.1 / self.currentSize.1),
      p.2 * (size.2 / self.currentSize.2)))
      = Prod.map (fun x : ℚ => x * (size.1 / self.currentSize.1))
          (fun y : ℚ => y * (size.2 / self.currentSize.2)) from rfl,
    ← List.zip_map]
  congr 1
  · rw [List.map_map]
    apply List.map_congr_left
    intro i _
    simp only [Function.comp_apply]
    field_simp
    ring
  · rw [List.map_map]
    apply List.map_congr_left
    intro v _
    simp only [Function.comp_apply]
    rw [mul_assoc, mul_comm self.currentSize.2
      (size.2 / self.currentSize.2), div_mul_cancel₀ _ hh]

lemma evalA_render_resized :
    (FftRenderer.data_preprocess cNorm cLn
        ⟨[((⟨1, 0⟩ : Cplx), 100), ((⟨3, 0⟩ : Cplx), 5000)], [(10, 14)],
          (600, 200)⟩).currentRenderData
      = [(0, 200 / 9), (300, 200)] := by
  rw [data_preprocess_render_data _ _ _ (by simp),
    show averagedOf cNorm cLn
        ⟨[((⟨1, 0⟩ : Cplx), 100), ((⟨3, 0⟩ : Cplx), 5000)], [(10, 14)],
          (600, 200)⟩ = [1, 9]
      from by rw [averagedOf]; norm_num [evalA_bucketPairs]]
  norm_num [listMax, List.range_succ]

/-- C9 counterexample: the shared slot is never drained, so after a batch
has arrived a resize with no new batch still recomputes the curve from the
retained batch instead of rescaling the existing DisplayCurve.  At a state
whose slot holds the two-bin batch, whose curve is `[(5, 7)]` and whose size
is `(300, 100)`, rendering at `(600, 200)` yields the curve recomputed from
the slot, `[(0, 200/9), (300, 200)]`, not the proportional rescale
`[(10, 14)]` of the existing curve that the claim predicts. -/
theorem C9_counterexample :
    (FftRenderer.render cNorm cLn
        ⟨[((⟨1, 0⟩ : Cplx), 100), ((⟨3, 0⟩ : Cplx), 5000)], [(5, 7)],
          (300, 100)⟩ (600, 200)).currentRenderData
      = [(0, 200 / 9), (300, 200)]
    ∧ ([((5 : ℚ), (7 : ℚ))]).map
        (fun p => (p.1 * ((600 : ℚ) / 300), p.2 * ((200 : ℚ) / 100)))
      = [(10, 14)]
    ∧ ([(0, (200 : ℚ) / 9), (300, 200)] : List (ℚ × ℚ)) ≠ [(10, 14)] := by
  refine ⟨?_, by norm_num, by norm_num⟩
  rw [FftRenderer.render, if_pos (by norm_num [Prod.ext_iff])]
  rw [show FftRenderer.resize
      ⟨[((⟨1, 0⟩ : Cplx), 100), ((⟨3, 0⟩ : Cplx), 5000)], [(5, 7)],
        (300, 100)⟩ (600, 200)
      = ⟨[((⟨1, 0⟩ : Cplx), 100), ((⟨3, 0⟩ : Cplx), 5000)], [(10, 14)],
        (600, 200)⟩ from by rw [FftRenderer.resize]; norm_num]
  exact evalA_render_resized

/-- C9 (amended): `data_preprocess` runs on every render and the shared
slot is never drained, so when the viewport size changes and no new batch
has arrived the DisplayCurve is recomputed from the retained (stale) batch
at the new size; only while the slot is empty (no batch ever arrived) is
the existing curve merely rescaled proportionally.  Because preprocessing
scales linearly in the viewport, the recomputed curve coincides exactly
with the proportional rescale (`x * new_width/old_width`,
`y * new_height/old_height`) whenever the existing curve was itself
produced from the retained batch at the old size, and in both cases
resizing A to B and back to A restores the original DisplayCurve
coordinates (exactly here; within floating-point tolerance in the `f32`
source). -/
theorem C9_stale_recompute_or_rescale (norm : Cplx → ℚ) (ln : ℚ → ℚ)
    (self : FftRenderer) (size : ℚ × ℚ)
    (hw : self.currentSize.1 ≠ 0) (hh : self.currentSize.2 ≠ 0)
    (hw2 : size.1 ≠ 0) (hh2 : size.2 ≠ 0) :
    (self.inputData = [] →
      (FftRenderer.render norm ln self size).currentRenderData
        = self.currentRenderData.map
            (fun p => (p.1 * (size.1 / self.currentSize.1),
              p.2 * (size.2 / self.currentSize.2)))
      ∧ (FftRenderer.render norm ln (FftRenderer.render norm ln self size)
          self.currentSize).currentRenderData = self.currentRenderData)
    ∧ (self.inputData ≠ [] →
      (FftRenderer.render norm ln self size).currentRenderData
        = (FftRenderer.data_preprocess norm ln
            { self with currentSize := size }).currentRenderData
      ∧ (0 < melDiffOf (melMap ln self.inputData) →
        self.currentRenderData
            = (FftRenderer.data_preprocess norm ln self).currentRenderData →
        (FftRenderer.render norm ln self size).currentRenderData
          = self.currentRenderData.map
              (fun p => (p.1 * (size.1 / self.currentSize.1),
                p.2 * (size.2 / self.currentSize.2)))
        ∧ (FftRenderer.render norm ln (FftRenderer.render norm ln self size)
            self.currentSize).currentRenderData
            = self.currentRenderData)) := by
  constructor
  · intro hempty
    by_cases hcs : self.currentSize = size
    · have hr1 : FftRenderer.render norm ln self size = self := by
        rw [FftRenderer.render, if_neg (by simp [hcs]),
          data_preprocess_of_empty norm ln self hempty]
      have hr2 : FftRenderer.render norm ln self self.currentSize = self := by
        rw [FftRenderer.render, if_neg (by simp),
          data_preprocess_of_empty norm ln self hempty]
      rw [hr1, hr2]
      refine ⟨?_, rfl⟩
      rw [← hcs]
      symm
      apply map_eq_self_of_mem
      intro p _
      rw [div_self hw, div_self hh, mul_one, mul_one]
    · have hr1 : FftRenderer.render norm ln self size
          = FftRenderer.resize self size := by
        rw [FftRenderer.render, if_pos (by simpa using hcs),
          data_preprocess_of_empty norm ln _
            (by simp [FftRenderer.resize, hempty])]
      have hne2 : (FftRenderer.resize self size).currentSize
          ≠ self.currentSize := fun hcon => hcs hcon.symm
      have hr2 : FftRenderer.render norm ln (FftRenderer.resize self size)
            self.currentSize
          = FftRenderer.resize (FftRenderer.resize self size)
              self.currentSize := by
        rw [FftRenderer.render, if_pos (by simpa using hne2),
          data_preprocess_of_empty norm ln _
            (by simp [FftRenderer.resize, hempty])]
      refine ⟨by rw [hr1]; rfl, ?_⟩
      rw [hr1, hr2]
      show ((self.currentRenderData.map _).map _) = self.currentRenderData
      rw [List.map_map]
      apply map_eq_self_of_mem
      intro p _
      simp only [Function.comp_apply]
      have h1 : p.1 * (size.1 / self.currentSize.1)
          * (self.currentSize.1 / size.1) = p.1 := by
        field_simp
      have h2 : p.2 * (size.2 / self.currentSize.2)
          * (self.currentSize.2 / size.2) = p.2 := by
        field_simp
      rw [show (FftRenderer.resize self size).currentSize = size from rfl,
        h1, h2]
  · intro hne
    refine ⟨render_recomputes norm ln self size hne, ?_⟩
    intro hd hcons
    have hrec := render_recomputes norm ln self size hne
    have hlin := data_preprocess_linear norm ln self size hne hd hw hh
    refine ⟨by rw [hrec, hlin, ← hcons], ?_⟩
    have hr1in : (FftRenderer.render norm ln self size).inputData
        = self.inputData := render_input norm ln self size
    have hback := render_recomputes norm ln
      (FftRenderer.render norm ln self size) self.currentSize
      (by rw [hr1in]; exact hne)
    rw [hback,
      data_preprocess_crd_congr norm ln
        { FftRenderer.render norm ln self size with
            currentSize := self.currentSize } self hr1in rfl hne]
    exact hcons.symm

/-- C9 witness at a concrete renderer state and size. -/
theorem C9_witness :
    ((2 : ℚ) ≠ 0 ∧ (3 : ℚ) ≠ 0 ∧ (5 : ℚ) ≠ 0 ∧ (7 : ℚ) ≠ 0)
    ∧ (((⟨[], [(1, 2), (3, 4)], (2, 3)⟩ : FftRenderer).inputData = [] →
        (FftRenderer.render cNorm cLn ⟨[], [(1, 2), (3, 4)], (2, 3)⟩
            (5, 7)).currentRenderData
          = ([(1, 2), (3, 4)] : List (ℚ × ℚ)).map
              (fun p => (p.1 * ((5, 7).1
                  / (⟨[], [(1, 2), (3, 4)], (2, 3)⟩ :
                      FftRenderer).currentSize.1),
                p.2 * ((5, 7).2
                  / (⟨[], [(1, 2), (3, 4)], (2, 3)⟩ :
                      FftRenderer).currentSize.2)))
        ∧ (FftRenderer.render cNorm cLn
            (FftRenderer.render cNorm cLn ⟨[], [(1, 2), (3, 4)], (2, 3)⟩
              (5, 7))
            (⟨[], [(1, 2), (3, 4)], (2, 3)⟩ :
              FftRenderer).currentSize).currentRenderData
          = [(1, 2), (3, 4)])
      ∧ ((⟨[], [(1, 2), (3, 4)], (2, 3)⟩ : FftRenderer).inputData ≠ [] →
        (FftRenderer.render cNorm cLn ⟨[], [(1, 2), (3, 4)], (2, 3)⟩
            (5, 7)).currentRenderData
          = (FftRenderer.data_preprocess cNorm cLn
              { (⟨[], [(1, 2), (3, 4)], (2, 3)⟩ : FftRenderer) with
                  currentSize := (5, 7) }).currentRenderData
        ∧ (0 < melDiffOf (melMap cLn
              (⟨[], [(1, 2), (3, 4)], (2, 3)⟩ : FftRenderer).inputData) →
          ([(1, 2), (3, 4)] : List (ℚ × ℚ))
              = (FftRenderer.data_preprocess cNorm cLn
                  ⟨[], [(1, 2), (3, 4)], (2, 3)⟩).currentRenderData →
          (FftRenderer.render cNorm cLn ⟨[], [(1, 2), (3, 4)], (2, 3)⟩
              (5, 7)).currentRenderData
            = ([(1, 2), (3, 4)] : List (ℚ × ℚ)).map
                (fun p => (p.1 * ((5, 7).1
                    / (⟨[], [(1, 2), (3, 4)], (2, 3)⟩ :
                        FftRenderer).currentSize.1),
                  p.2 * ((5, 7).2
                    / (⟨[], [(1, 2), (3, 4)], (2, 3)⟩ :
                        FftRenderer).currentSize.2)))
          ∧ (FftRenderer.render cNorm cLn
              (FftRenderer.render cNorm cLn ⟨[], [(1, 2), (3, 4)], (2, 3)⟩
                (5, 7))
              (⟨[], [(1, 2), (3, 4)], (2, 3)⟩ :
                FftRenderer).currentSize).currentRenderData
              = [(1, 2), (3, 4)]))) :=
  ⟨⟨by norm_num, by norm_num, by norm_num, by norm_num⟩,
    C9_stale_recompute_or_rescale cNorm cLn ⟨[], [(1, 2), (3, 4)], (2, 3)⟩
      (5, 7) (by norm_num) (by norm_num) (by norm_num) (by norm_num)⟩

/-- Models the outcome of one `try_recv()` on the device-change channel
(`std::sync::mpsc`) at a control tick: a pending message, an empty but
connected channel, or a disconnected channel (sender dropped because the
capture thread exited). -/
inductive ChannelRead
  | msg (value : Bool)
  | empty
  | disconnected
deriving DecidableEq, Repr

/-- Models the `AppAudioManager` controller state (src/app_audio_manager.rs
lines 144-152): the shared playing gate's boolean (`Arc<(Mutex<bool>,
Condvar)>` contents), the currently bound process id, the pending state of
the `device_change` receiver, and — as instrumentation — the ordered list of
pids passed to `create_thread`. -/
structure AppAudioManager where
  playing : Bool
  currentPid : Option ℕ
  deviceChange : ChannelRead
  spawnedThreads : List ℕ
deriving DecidableEq, Repr

/-- Models `AppAudioManager::start` (src/app_audio_manager.rs lines 177-182):
set the shared gate to true and notify the condition variable. -/
def AppAudioManager.start (self : AppAudioManager) : AppAudioManager :=
  { self with playing := true }

/-- Models `AppAudioManager::stop` (src/app_audio_manager.rs lines 185-190):
set the shared gate to false and notify the condition variable; nothing else
is touched. -/
def AppAudioManager.stop (self : AppAudioManager) : AppAudioManager :=
  { self with playing := false }

/-- Models `AppAudioManager::is_playing` (src/app_audio_manager.rs lines
204-208): read the shared gate. -/
def AppAudioManager.is_playing (self : AppAudioManager) : Bool :=
  self.playing

/-- Models `AppAudioManager::create_thread` (src/app_audio_manager.rs lines
211-228): record the bound pid, install a fresh (connected, empty)
device-change channel, and spawn a capture thread for `pid`. -/
def AppAudioManager.create_thread (self : AppAudioManager) (pid : ℕ) :
    AppAudioManager :=
  { self with
    currentPid := some pid,
    deviceChange := ChannelRead.empty,
    spawnedThreads := self.spawnedThreads ++ [pid] }

/-- Models `AppAudioManager::check_device` (src/app_audio_manager.rs lines
195-201): one non-blocking receive on the device-change channel; a `true`
message or a disconnected channel triggers `create_thread(pid)`. -/
def AppAudioManager.check_device (self : AppAudioManager) (pid : ℕ) :
    AppAudioManager :=
  match self.deviceChange with
  | ChannelRead.msg value =>
    if value then
      AppAudioManager.create_thread { self with deviceChange := ChannelRead.empty } pid
    else { self with deviceChange := ChannelRead.empty }
  | ChannelRead.empty => self
  | ChannelRead.disconnected => AppAudioManager.create_thread self pid

/-- Models `AppAudioManager::update` (src/app_audio_manager.rs lines
235-239) exactly: it calls `check_device(app.1)` and then, whether or not
the new target pid equals the current one, does nothing further — the body
after the `if Some(app.1) == self.current_pid { return }` guard is empty,
and no kill channel exists anywhere in the source. -/
def AppAudioManager.update (self : AppAudioManager) (pid : ℕ) :
    AppAudioManager :=
  let s := AppAudioManager.check_device self pid
  if some pid = s.currentPid then s else s

/-- Control phases of the capture thread inside `capture_loop`. -/
inductive ThreadPhase
  | streaming
  | parked
  | exited
deriving DecidableEq, Repr

/-- Models the end-of-iteration control flow of `AudioThread::capture_loop`
(src/app_audio_manager.rs lines 109-139): a buffer-event wait error stops
the stream and breaks; a default-device identity change sends on the
device-change channel and returns; otherwise the thread re-reads the shared
gate and, when it is false, stops the stream and parks on the condition
variable until the gate is true again.  A parked thread wakes into
streaming when the gate is true.  There is no other exit path and no kill
channel. -/
def AudioThread.captureStep (playing : Bool) (waitErr deviceChanged : Bool) :
    ThreadPhase → ThreadPhase
  | ThreadPhase.streaming =>
    if waitErr then ThreadPhase.exited
    else if deviceChanged then ThreadPhase.exited
    else if playing then ThreadPhase.streaming else ThreadPhase.parked
  | ThreadPhase.parked =>
    if playing then ThreadPhase.streaming else ThreadPhase.parked
  | ThreadPhase.exited => ThreadPhase.exited

/-- C7: the claim says `update` with a different target pid sends a kill
signal over a kill-channel, the capture thread exits promptly, and a new
thread is spawned for the new target.  The code has no kill channel at all:
with a live thread (device-change channel empty) `update` to pid 2 while
bound to pid 1 changes nothing — no spawn, the bound pid stays 1 — and the
capture thread, whose loop checks only the wait-error, device-change and
gate conditions, keeps streaming. -/
theorem C7_update_ignores_new_target :
    AppAudioManager.update ⟨true, some 1, ChannelRead.empty, [1]⟩ 2
      = ⟨true, some 1, ChannelRead.empty, [1]⟩
    ∧ AudioThread.captureStep true false false ThreadPhase.streaming
      = ThreadPhase.streaming :=
  ⟨rfl, rfl⟩

/-- C8: `stop()` right after `start()` leaves the gate false (`is_playing()`
returns false) and touches nothing but the gate; the capture thread's next
gate check moves it from streaming to parked (blocked on the condition
variable), a parked thread stays parked, and neither phase exits in
response — the loop has no exit path through the gate. -/
theorem C8_start_stop_parks_thread (self : AppAudioManager) :
    AppAudioManager.is_playing
        (AppAudioManager.stop (AppAudioManager.start self)) = false
    ∧ AppAudioManager.stop (AppAudioManager.start self)
      = { AppAudioManager.start self with playing := false }
    ∧ AudioThread.captureStep
        (AppAudioManager.is_playing
          (AppAudioManager.stop (AppAudioManager.start self)))
        false false ThreadPhase.streaming = ThreadPhase.parked
    ∧ AudioThread.captureStep
        (AppAudioManager.is_playing
          (AppAudioManager.stop (AppAudioManager.start self)))
        false false ThreadPhase.parked = ThreadPhase.parked
    ∧ AudioThread.captureStep
        (AppAudioManager.is_playing
          (AppAudioManager.stop (AppAudioManager.start self)))
        false false ThreadPhase.streaming ≠ ThreadPhase.exited
    ∧ AudioThread.captureStep
        (AppAudioManager.is_playing
          (AppAudioManager.stop (AppAudioManager.start self)))
        false false ThreadPhase.parked ≠ ThreadPhase.exited :=
  ⟨rfl, rfl, rfl, rfl, fun h => ThreadPhase.noConfusion h,
    fun h => ThreadPhase.noConfusion h⟩
